import Mathlib

/-!
Verification of the pomodorotracker repository.

The plan builder lives in `src/pomodorotracker/scheduler.py` (`Interval`,
`PomodoroPlan`, `build_plan`) and the cadence-aware variant
`build_custom_plan` plus the Streamlit session handlers live in
`src/pomodorotracker/streamlit_app.py` (first copy of the dashboard code;
the file contains several identical duplicates of `build_custom_plan`).

Modelling conventions:
* Python `int` values are embedded as `Int` (they may be negative, e.g. the
  validation checks compare against 0 and 1).
* Wall-clock instants (`time.time()`, `end_time`) are embedded as `Int`
  whole seconds; Python's `int(x)` truncation on the difference of two
  whole-second instants is exact.
* Python float division inside the percentage computation
  `int(min(100, (elapsed / total) * 100))` is modelled as the exact rational
  `100 * elapsed / total` truncated toward zero, which is `Int.tdiv`.
* Python `%` on ints is floor-based, which is `Int.fmod`.  Python raises
  `ZeroDivisionError` when `long_interval = 0` and the loop body executes;
  the theorems below only use `long_interval ≥ 1` (or an empty loop), where
  `build_custom_plan` is total.
-/

namespace PomodoroTracker

/-- `Interval.kind` in scheduler.py is one of the strings
"focus" / "short_break" / "long_break"; embedded as an enumeration. -/
inductive IntervalKind where
  | focus
  | short_break
  | long_break
deriving DecidableEq, Repr

/-- scheduler.py `Interval`: one focus or break interval. -/
structure Interval where
  kind : IntervalKind
  label : String
  duration_seconds : Int
deriving DecidableEq, Repr

/-- scheduler.py `PomodoroPlan.total_seconds`: the sum of the member
durations. -/
def total_seconds (intervals : List Interval) : Int :=
  (intervals.map (·.duration_seconds)).sum

/-- Number of intervals of a given kind in a plan. -/
def countKind (k : IntervalKind) (intervals : List Interval) : Nat :=
  intervals.countP (fun iv => iv.kind == k)

/-- scheduler.py `build_plan`: validates the configuration and emits, for
each `index` in `1..pomodoros`, a focus interval followed by a break; the
break is the single long break when `index == pomodoros`, else a short
break.  Python `raise ValueError(msg)` is embedded as `Except.error msg`.
`simplePlanIntervals` is the loop of `build_plan` (scheduler.py lines
59-85); `build_plan` itself adds the two validation checks in front. -/
def simpleBody (pomodoros : Nat)
    (focus_minutes short_break_minutes long_break_minutes : Int) (i : Nat) : List Interval :=
  let index := i + 1
  [⟨.focus, "Focus " ++ toString index, focus_minutes * 60⟩,
   if index = pomodoros then
     ⟨.long_break, "Long break", long_break_minutes * 60⟩
   else
     ⟨.short_break, "Short break " ++ toString index, short_break_minutes * 60⟩]

def simplePlanIntervals (pomodoros : Nat)
    (focus_minutes short_break_minutes long_break_minutes : Int) : List Interval :=
  (List.range pomodoros).flatMap
    (simpleBody pomodoros focus_minutes short_break_minutes long_break_minutes)

def build_plan (pomodoros focus_minutes short_break_minutes long_break_minutes : Int) :
    Except String (List Interval) :=
  if pomodoros < 1 then .error "pomodoros must be at least 1"
  else if min focus_minutes (min short_break_minutes long_break_minutes) ≤ 0 then
    .error "all durations must be positive"
  else .ok (simplePlanIntervals pomodoros.toNat
    focus_minutes short_break_minutes long_break_minutes)

/-- One repeat cycle of streamlit_app.py `build_custom_plan`: the inner
`for index in range(1, pomodoros + 1)` loop body. -/
def customBody (focus_m short_m long_m long_interval : Int) (i : Nat) : List Interval :=
  let index := i + 1
  [⟨.focus, "Focus " ++ toString index, focus_m * 60⟩,
   if Int.fmod (index : Int) long_interval = 0 then
     ⟨.long_break, "Long break", long_m * 60⟩
   else
     ⟨.short_break, "Short break " ++ toString index, short_m * 60⟩]

def customCycle (pomodoros focus_m short_m long_m long_interval : Int) : List Interval :=
  (List.range pomodoros.toNat).flatMap (customBody focus_m short_m long_m long_interval)

/-- streamlit_app.py `build_custom_plan`: the outer `for _ in range(repeat)`
loop repeats the inner cycle; the loop body does not depend on the cycle
counter. -/
def build_custom_plan (pomodoros focus_m short_m long_m long_interval repeat_cycles : Int) :
    List Interval :=
  (List.range repeat_cycles.toNat).flatMap (fun _ =>
    customCycle pomodoros focus_m short_m long_m long_interval)

/-- The Streamlit `st.session_state` fields that drive the timer
(streamlit_app.py, first `main`): `current_index`, `running`, `end_time`
(absolute deadline, 0.0 when cleared) and `remaining` (seconds carried from
a pause, 0 when cleared). -/
structure SessionState where
  current_index : Nat
  running : Bool
  end_time : Int
  remaining : Int
deriving DecidableEq, Repr

/-- streamlit_app.py line 144: the effective length of one interval,
`curr.duration_seconds if not fast else max(1, curr.duration_seconds // 60)`
(Python `//` is floor division, `Int.fdiv`). -/
def effectiveTotal (fast : Bool) (iv : Interval) : Int :=
  if fast then max 1 (Int.fdiv iv.duration_seconds 60) else iv.duration_seconds

/-- The `total_seconds` local of `main`: the effective length of the current
interval, or 0 when `current_index` is out of range (`curr is None`). -/
def totalSecondsFor (plan : List Interval) (fast : Bool) (s : SessionState) : Int :=
  match plan[s.current_index]? with
  | some curr => effectiveTotal fast curr
  | none => 0

/-- The Start button handler (streamlit_app.py lines 165-171): when the
current interval exists, set the deadline from the carried remainder if it
is positive, else from the full effective duration, and set `running`;
otherwise do nothing. -/
def startHandler (plan : List Interval) (fast : Bool) (now : Int) (s : SessionState) :
    SessionState :=
  if s.current_index < plan.length then
    if 0 < s.remaining then
      { s with end_time := now + s.remaining, running := true }
    else
      { s with end_time := now + totalSecondsFor plan fast s, running := true }
  else s

/-- The Pause button handler (streamlit_app.py lines 172-175): always clear
`running`; when `end_time` is non-zero (Python truthiness of the float),
recompute `remaining = max(0, int(end_time - time.time()))`. -/
def pauseHandler (now : Int) (s : SessionState) : SessionState :=
  if s.end_time ≠ 0 then
    { s with running := false, remaining := max 0 (s.end_time - now) }
  else
    { s with running := false }

/-- The Reset button handler (streamlit_app.py lines 176-180). -/
def resetHandler (_s : SessionState) : SessionState :=
  { current_index := 0, running := false, end_time := 0, remaining := 0 }

/-- The percentage `int(min(100, (elapsed / total_seconds) * 100))` of
streamlit_app.py line 206, on the exact rational value of the float
expression: truncation toward zero of `100 * elapsed / total` is
`Int.tdiv`, and `int(min(100, x)) = min 100 (trunc x)` because truncation
is monotone and fixes 100. -/
def pctValue (total elapsed : Int) : Int :=
  min 100 (Int.tdiv (100 * elapsed) total)

/-- What one rerun of the timer block displays (streamlit_app.py lines
184-214): nothing when no interval is planned, a completion banner (with
the completed interval) when the deadline has passed, the countdown with a
progress percentage while running, or the idle display otherwise. -/
inductive TickOutput where
  | noInterval
  | completed (iv : Interval)
  | runningDisplay (remaining : Int) (pct : Int)
  | idleDisplay (shown : Int)
deriving DecidableEq, Repr

/-- The timer display/advance logic of `main` (streamlit_app.py lines
184-214), as a function of the injected clock `now`.  While running with
`remaining = int(end_time - now) <= 0` it advances `current_index`, clears
the running/deadline/carried fields and reports the completion; with
`remaining > 0` it reports the countdown and the percentage
`int(min(100, (elapsed / total_seconds) * 100))` (exact rational division
truncated toward zero, i.e. `Int.tdiv`), leaving the state unchanged. -/
def tick (plan : List Interval) (fast : Bool) (now : Int) (s : SessionState) :
    SessionState × TickOutput :=
  match plan[s.current_index]? with
  | none => (s, .noInterval)
  | some curr =>
    let total := effectiveTotal fast curr
    if s.running then
      let remaining := s.end_time - now
      if remaining ≤ 0 then
        ({ current_index := s.current_index + 1, running := false,
           end_time := 0, remaining := 0 }, .completed curr)
      else
        let elapsed := if 0 < total then total - remaining else 0
        let pct := if 0 < total then pctValue total elapsed else 0
        (s, .runningDisplay remaining pct)
    else
      (s, .idleDisplay (if 0 < s.remaining then s.remaining else total))

/-- The percentage shown by a tick, when one is shown at all. -/
def pctDisplayed : TickOutput → Option Int
  | .runningDisplay _ p => some p
  | _ => none

/-! ### Generic helper lemmas about the loop shapes used by the builders -/

theorem length_flatMap_const_len {α β : Type _} (l : List α) (g : α → List β) (c : Nat)
    (h : ∀ a ∈ l, (g a).length = c) : (l.flatMap g).length = l.length * c := by
  induction l with
  | nil => simp
  | cons a t ih =>
    have ha : (g a).length = c := h a (by simp)
    have ht : ∀ a ∈ t, (g a).length = c := fun x hx => h x (by simp [hx])
    simp [List.flatMap_cons, ha, ih ht, Nat.succ_mul, Nat.add_comm]

theorem countP_flatMap_const (l : List α) (g : α → List β) (p : β → Bool) (c : Nat)
    (h : ∀ a ∈ l, (g a).countP p = c) : (l.flatMap g).countP p = l.length * c := by
  induction l with
  | nil => simp
  | cons a t ih =>
    have ha := h a (by simp)
    have ht : ∀ a ∈ t, (g a).countP p = c := fun x hx => h x (by simp [hx])
    simp [List.flatMap_cons, List.countP_append, ha, ih ht, Nat.succ_mul, Nat.add_comm]

theorem getElem?_flatMap_two {α β : Type _} (l : List α) (g : α → List β)
    (hg : ∀ a, (g a).length = 2) :
    ∀ (i k : Nat), k < 2 → (hi : i < l.length) →
      (l.flatMap g)[2 * i + k]? = (g (l.get ⟨i, hi⟩))[k]? := by
  induction l with
  | nil => intro i k _ hi; cases hi
  | cons a t ih =>
    intro i k hk hi
    cases i with
    | zero =>
      rw [List.flatMap_cons, List.getElem?_append, if_pos]
      · simp
      · simpa [hg a] using hk
    | succ j =>
      have hj : j < t.length := Nat.lt_of_succ_lt_succ hi
      have hlen : (g a).length ≤ 2 * (j + 1) + k := by
        rw [hg a]; omega
      rw [List.flatMap_cons, List.getElem?_append_right hlen, hg a]
      have : 2 * (j + 1) + k - 2 = 2 * j + k := by omega
      rw [this, ih j k hk hj]
      rfl

theorem flatMap_const_eq_flatten_replicate {α β : Type _} (l : List α) (blk : List β) :
    l.flatMap (fun _ => blk) = (List.replicate l.length blk).flatten := by
  induction l with
  | nil => simp
  | cons a t ih => simp [List.flatMap_cons, List.replicate_succ, ih]

theorem getElem?_flatten_replicate {β : Type _} (n : Nat) (blk : List β) :
    ∀ (cyc j : Nat), cyc < n → j < blk.length →
      ((List.replicate n blk).flatten)[cyc * blk.length + j]? = blk[j]? := by
  induction n with
  | zero => intro cyc j hc; cases hc
  | succ m ih =>
    intro cyc j hc hj
    rw [List.replicate_succ, List.flatten_cons]
    cases cyc with
    | zero =>
      have h0 : 0 * blk.length + j < blk.length := by simpa using hj
      rw [List.getElem?_append, if_pos h0]
      simp
    | succ d =>
      have hlen : blk.length ≤ (d + 1) * blk.length + j := by
        calc blk.length ≤ (d + 1) * blk.length :=
              Nat.le_mul_of_pos_left _ (Nat.succ_pos d)
        _ ≤ (d + 1) * blk.length + j := Nat.le_add_right _ _
      rw [List.getElem?_append_right hlen]
      have : (d + 1) * blk.length + j - blk.length = d * blk.length + j := by
        rw [Nat.succ_mul]; omega
      rw [this]
      exact ih d j (Nat.lt_of_succ_lt_succ hc) hj

/-- Sum of durations split by kind: when every interval's duration is
determined by its kind, the total is (count of each kind) * (its duration). -/
theorem total_seconds_by_kind (dv : IntervalKind → Int) (l : List Interval)
    (h : ∀ iv ∈ l, iv.duration_seconds = dv iv.kind) :
    total_seconds l =
      (countKind .focus l : Int) * dv .focus +
      (countKind .short_break l : Int) * dv .short_break +
      (countKind .long_break l : Int) * dv .long_break := by
  induction l with
  | nil => simp [total_seconds, countKind]
  | cons a t ih =>
    have ha := h a (by simp)
    have ht : ∀ iv ∈ t, iv.duration_seconds = dv iv.kind := fun x hx => h x (by simp [hx])
    have ihh := ih ht
    rcases hk : a.kind with _ | _ | _ <;>
      simp [total_seconds, countKind, List.countP_cons, hk, ha] at ihh ⊢ <;>
      rw [ihh] <;> ring

/-! ### Basic facts about the two builders -/

theorem build_plan_ok (p f s l : Int) (hp : 1 ≤ p) (hf : 0 < f) (hs : 0 < s) (hl : 0 < l) :
    build_plan p f s l = .ok (simplePlanIntervals p.toNat f s l) := by
  unfold build_plan
  rw [if_neg (by omega), if_neg (by simp only [not_le, lt_min_iff]; exact ⟨hf, hs, hl⟩)]

theorem simplePlanIntervals_length (p : Nat) (f s l : Int) :
    (simplePlanIntervals p f s l).length = p * 2 := by
  unfold simplePlanIntervals
  rw [length_flatMap_const_len _ _ 2 (by intro a _; rfl)]
  simp

theorem customCycle_length (p f s l L : Int) :
    (customCycle p f s l L).length = p.toNat * 2 := by
  unfold customCycle
  rw [length_flatMap_const_len _ _ 2 (by intro a _; rfl)]
  simp

theorem build_custom_plan_length (p f s l L r : Int) :
    (build_custom_plan p f s l L r).length = r.toNat * (p.toNat * 2) := by
  unfold build_custom_plan
  rw [length_flatMap_const_len _ _ (p.toNat * 2) (by intro a _; exact customCycle_length p f s l L)]
  simp

/-- **C1.** For every valid configuration (`pomodoros ≥ 1`, all durations
positive, `long_break_every_n ≥ 1`, `repeat_cycles ≥ 1`), the plan returned
by the builder contains exactly `repeat_cycles * 2 * pomodoros` intervals:
`build_plan` (with its implicit single cycle) yields `1 * (2 * pomodoros)`
intervals and `build_custom_plan` yields `repeat_cycles * (2 * pomodoros)`
intervals. -/
theorem plan_interval_count (p f s l L r : Int)
    (hp : 1 ≤ p) (hf : 0 < f) (hs : 0 < s) (hl : 0 < l) (hL : 1 ≤ L) (hr : 1 ≤ r) :
    (∀ plan, build_plan p f s l = .ok plan → (plan.length : Int) = 1 * (2 * p)) ∧
    ((build_custom_plan p f s l L r).length : Int) = r * (2 * p) := by
  have hpn : (p.toNat : Int) = p := Int.toNat_of_nonneg (by omega)
  have hrn : (r.toNat : Int) = r := Int.toNat_of_nonneg (by omega)
  constructor
  · intro plan hok
    rw [build_plan_ok p f s l hp hf hs hl] at hok
    cases hok
    rw [simplePlanIntervals_length]
    push_cast [hpn]
    ring
  · rw [build_custom_plan_length]
    push_cast [hpn, hrn]
    ring

theorem plan_interval_count_witness :
    ((build_custom_plan 2 1 1 2 4 3).length : Int) = 3 * (2 * 2) :=
  (plan_interval_count 2 1 1 2 4 3 (by norm_num) (by norm_num) (by norm_num)
    (by norm_num) (by norm_num) (by norm_num)).2

/-- The per-kind duration table of a configuration. -/
def kindDuration (f s l : Int) : IntervalKind → Int
  | .focus => f * 60
  | .short_break => s * 60
  | .long_break => l * 60

theorem simpleBody_length (p : Nat) (f s l : Int) (i : Nat) :
    (simpleBody p f s l i).length = 2 := rfl

theorem customBody_length (f s l L : Int) (i : Nat) :
    (customBody f s l L i).length = 2 := rfl

theorem simplePlanIntervals_durations (p : Nat) (f s l : Int) :
    ∀ iv ∈ simplePlanIntervals p f s l, iv.duration_seconds = kindDuration f s l iv.kind := by
  intro iv hiv
  simp only [simplePlanIntervals, simpleBody, List.mem_flatMap, List.mem_cons,
    List.not_mem_nil, or_false] at hiv
  obtain ⟨i, -, hiv | hiv⟩ := hiv
  · subst hiv; rfl
  · split at hiv <;> subst hiv <;> rfl

theorem customCycle_durations (p f s l L : Int) :
    ∀ iv ∈ customCycle p f s l L, iv.duration_seconds = kindDuration f s l iv.kind := by
  intro iv hiv
  simp only [customCycle, customBody, List.mem_flatMap, List.mem_cons,
    List.not_mem_nil, or_false] at hiv
  obtain ⟨i, -, hiv | hiv⟩ := hiv
  · subst hiv; rfl
  · split at hiv <;> subst hiv <;> rfl

theorem build_custom_plan_durations (p f s l L r : Int) :
    ∀ iv ∈ build_custom_plan p f s l L r,
      iv.duration_seconds = kindDuration f s l iv.kind := by
  intro iv hiv
  simp only [build_custom_plan, List.mem_flatMap] at hiv
  obtain ⟨c, -, hiv⟩ := hiv
  exact customCycle_durations p f s l L iv hiv

theorem countKind_focus_simplePlanIntervals (p : Nat) (f s l : Int) :
    countKind .focus (simplePlanIntervals p f s l) = p := by
  unfold countKind simplePlanIntervals
  rw [countP_flatMap_const _ _ _ 1 ?_]
  · simp
  · intro a _
    unfold simpleBody
    dsimp only []
    split <;> simp [List.countP_cons]

theorem countKind_focus_customCycle (p f s l L : Int) :
    countKind .focus (customCycle p f s l L) = p.toNat := by
  unfold countKind customCycle
  rw [countP_flatMap_const _ _ _ 1 ?_]
  · simp
  · intro a _
    unfold customBody
    dsimp only []
    split <;> simp [List.countP_cons]

theorem countKind_focus_build_custom_plan (p f s l L r : Int) :
    countKind .focus (build_custom_plan p f s l L r) = r.toNat * p.toNat := by
  unfold countKind build_custom_plan
  rw [countP_flatMap_const _ _ _ p.toNat
    (fun a _ => countKind_focus_customCycle p f s l L)]
  simp

/-- **C2.** For every valid configuration, the plan's total duration (the
sum of its member durations, which is what `PomodoroPlan.total_seconds`
computes) equals `repeat_cycles * pomodoros * focus_minutes * 60` plus
(number of long-break intervals) `* long_break_minutes * 60` plus (number
of short-break intervals) `* short_break_minutes * 60`; for `build_plan`
the repeat factor is 1. -/
theorem plan_total_seconds (p f s l L r : Int)
    (hp : 1 ≤ p) (hf : 0 < f) (hs : 0 < s) (hl : 0 < l) (hL : 1 ≤ L) (hr : 1 ≤ r) :
    (∀ plan, build_plan p f s l = .ok plan →
      total_seconds plan = 1 * p * (f * 60) +
        (countKind .long_break plan : Int) * (l * 60) +
        (countKind .short_break plan : Int) * (s * 60)) ∧
    total_seconds (build_custom_plan p f s l L r) = r * p * (f * 60) +
      (countKind .long_break (build_custom_plan p f s l L r) : Int) * (l * 60) +
      (countKind .short_break (build_custom_plan p f s l L r) : Int) * (s * 60) := by
  have hpn : (p.toNat : Int) = p := Int.toNat_of_nonneg (by omega)
  have hrn : (r.toNat : Int) = r := Int.toNat_of_nonneg (by omega)
  constructor
  · intro plan hok
    rw [build_plan_ok p f s l hp hf hs hl] at hok
    cases hok
    rw [total_seconds_by_kind (kindDuration f s l) _ (simplePlanIntervals_durations p.toNat f s l),
      countKind_focus_simplePlanIntervals]
    simp only [kindDuration, hpn]
    ring
  · rw [total_seconds_by_kind (kindDuration f s l) _ (build_custom_plan_durations p f s l L r),
      countKind_focus_build_custom_plan]
    simp only [kindDuration]
    push_cast [hpn, hrn]
    ring

theorem plan_total_seconds_witness :
    total_seconds (build_custom_plan 2 1 1 2 4 3) = 3 * 2 * (1 * 60) +
      (countKind .long_break (build_custom_plan 2 1 1 2 4 3) : Int) * (2 * 60) +
      (countKind .short_break (build_custom_plan 2 1 1 2 4 3) : Int) * (1 * 60) :=
  (plan_total_seconds 2 1 1 2 4 3 (by norm_num) (by norm_num) (by norm_num)
    (by norm_num) (by norm_num) (by norm_num)).2

/-! ### C3: validation behaviour of the two builders -/

/-- **C3 counterexample.** The claim says every input violating a numeric
constraint makes the plan builder fail with an `InvalidConfiguration`
error, for the cadence variant too.  But `build_custom_plan` has no
validation at all: with `pomodoros = 0` (violating `pomodoros >= 1`) it
silently returns the empty plan, while `build_plan` on the same input does
raise.  -/
theorem plan_validation_counterexample :
    build_custom_plan 0 1 1 1 4 1 = [] ∧
    build_plan 0 1 1 1 = .error "pomodoros must be at least 1" := by
  constructor
  · rfl
  · rfl

/-- **C3 (amended).** The simple variant `build_plan` raises exactly as
claimed: `ValueError "pomodoros must be at least 1"` when `pomodoros < 1`,
`ValueError "all durations must be positive"` when some duration is `≤ 0`,
and it succeeds (never raises) on every valid input.  The cadence variant
`build_custom_plan` performs no validation: a non-positive `pomodoros`
yields the empty plan with no error (and no input with
`long_break_every_n ≥ 1` errors). -/
theorem plan_validation (p f s l : Int) :
    (p < 1 → build_plan p f s l = .error "pomodoros must be at least 1") ∧
    (1 ≤ p → min f (min s l) ≤ 0 →
      build_plan p f s l = .error "all durations must be positive") ∧
    (1 ≤ p → 0 < f → 0 < s → 0 < l →
      build_plan p f s l = .ok (simplePlanIntervals p.toNat f s l)) ∧
    (∀ L r : Int, p ≤ 0 → build_custom_plan p f s l L r = []) := by
  refine ⟨?_, ?_, ?_, ?_⟩
  · intro hp
    unfold build_plan
    rw [if_pos hp]
  · intro hp hmin
    unfold build_plan
    rw [if_neg (by omega), if_pos hmin]
  · intro hp hf hs hl
    exact build_plan_ok p f s l hp hf hs hl
  · intro L r hp
    have hcyc : customCycle p f s l L = [] := by
      simp [customCycle, Int.toNat_of_nonpos hp]
    simp [build_custom_plan, List.flatMap_eq_nil_iff, hcyc]

theorem plan_validation_witness :
    build_plan 0 1 1 1 = .error "pomodoros must be at least 1" ∧
    build_plan 1 (-2) 1 1 = .error "all durations must be positive" ∧
    build_plan 1 1 1 1 = .ok (simplePlanIntervals (1 : Int).toNat 1 1 1) ∧
    build_custom_plan (-1) 1 1 1 4 1 = [] :=
  ⟨(plan_validation 0 1 1 1).1 (by norm_num),
   (plan_validation 1 (-2) 1 1).2.1 (by norm_num) (by norm_num),
   (plan_validation 1 1 1 1).2.2.1 (by norm_num) (by norm_num) (by norm_num) (by norm_num),
   (plan_validation (-1) 1 1 1).2.2.2 4 1 (by norm_num)⟩

/-! ### C4: where the long breaks are placed -/

theorem fmod_natCast (m n : Nat) : Int.fmod (m : Int) (n : Int) = ((m % n : Nat) : Int) := by
  rw [Int.fmod_eq_emod _ (Int.natCast_nonneg n)]
  omega

theorem simplePlanIntervals_break (p : Nat) (f s l : Int) (i : Nat) (hi : i < p) :
    (simplePlanIntervals p f s l)[2 * i + 1]? =
      some (if i + 1 = p then ⟨.long_break, "Long break", l * 60⟩
        else ⟨.short_break, "Short break " ++ toString (i + 1), s * 60⟩) := by
  unfold simplePlanIntervals
  rw [getElem?_flatMap_two _ _ (simpleBody_length p f s l) i 1 (by omega)
    (by simpa using hi)]
  rw [List.get_range]
  rfl

theorem customCycle_break (p f s l L : Int) (i : Nat) (hi : i < p.toNat) :
    (customCycle p f s l L)[2 * i + 1]? =
      some (if Int.fmod ((i + 1 : Nat) : Int) L = 0 then ⟨.long_break, "Long break", l * 60⟩
        else ⟨.short_break, "Short break " ++ toString (i + 1), s * 60⟩) := by
  unfold customCycle
  rw [getElem?_flatMap_two _ _ (customBody_length f s l L) i 1 (by omega)
    (by simpa using hi)]
  rw [List.get_range]
  rfl

theorem build_custom_plan_getElem (p f s l L r : Int) (c j : Nat)
    (hc : c < r.toNat) (hj : j < p.toNat * 2) :
    (build_custom_plan p f s l L r)[c * (p.toNat * 2) + j]? =
      (customCycle p f s l L)[j]? := by
  unfold build_custom_plan
  rw [flatMap_const_eq_flatten_replicate, List.length_range]
  have h := getElem?_flatten_replicate r.toNat (customCycle p f s l L) c j hc
    (by rw [customCycle_length]; omega)
  rw [customCycle_length] at h
  exact h

/-- **C4.** Break placement.  In the simple variant the break after focus
index `i` (the interval at position `2*i + 1`, 0-based `i`) is the long
break exactly when `i + 1 = pomodoros`, so the plan has exactly one long
break and it is the last interval.  In the cadence variant the break after
focus index `i` of every repeat cycle is a long break exactly when
`(i + 1) % long_break_every_n = 0`, with no special treatment of the last
focus interval. -/
theorem break_placement (p f s l L r : Int)
    (hp : 1 ≤ p) (hf : 0 < f) (hs : 0 < s) (hl : 0 < l) (hL : 1 ≤ L) (hr : 1 ≤ r) :
    (∀ plan, build_plan p f s l = .ok plan →
      (∀ i : Nat, i < p.toNat →
        (plan[2 * i + 1]?).map Interval.kind =
          some (if i + 1 = p.toNat then .long_break else .short_break)) ∧
      countKind .long_break plan = 1 ∧
      (plan.getLast?).map Interval.kind = some .long_break) ∧
    (∀ c i : Nat, c < r.toNat → i < p.toNat →
      ((build_custom_plan p f s l L r)[c * (p.toNat * 2) + (2 * i + 1)]?).map Interval.kind =
        some (if (i + 1) % L.toNat = 0 then .long_break else .short_break)) := by
  have hLn : ((L.toNat : Nat) : Int) = L := Int.toNat_of_nonneg (by omega)
  constructor
  · intro plan hok
    rw [build_plan_ok p f s l hp hf hs hl] at hok
    cases hok
    obtain ⟨m, hm⟩ : ∃ m, p.toNat = m + 1 := ⟨p.toNat - 1, by omega⟩
    refine ⟨?_, ?_, ?_⟩
    · intro i hi
      rw [simplePlanIntervals_break p.toNat f s l i hi, Option.map_some']
      by_cases hc : i + 1 = p.toNat <;> simp [hc]
    · unfold countKind simplePlanIntervals
      rw [hm, List.range_succ, List.flatMap_append, List.countP_append]
      have h0 : List.countP (fun iv => iv.kind == IntervalKind.long_break)
          ((List.range m).flatMap (simpleBody (m + 1) f s l)) = 0 := by
        rw [List.countP_eq_zero]
        intro iv hiv
        simp only [List.mem_flatMap, simpleBody, List.mem_cons,
          List.not_mem_nil, or_false] at hiv
        obtain ⟨i, hirange, hiv | hiv⟩ := hiv
        · subst hiv; simp
        · have hne : ¬ (i + 1 = m + 1) := by
            have := List.mem_range.mp hirange; omega
          rw [if_neg hne] at hiv
          subst hiv; simp
      rw [h0]
      simp [simpleBody, List.countP_cons]
    · unfold simplePlanIntervals
      rw [hm, List.range_succ, List.flatMap_append, List.getLast?_append]
      simp [simpleBody]
  · intro c i hc hi
    rw [build_custom_plan_getElem p f s l L r c (2 * i + 1) hc (by omega)]
    rw [customCycle_break p f s l L i hi, Option.map_some']
    have hcond : (Int.fmod ((i + 1 : Nat) : Int) L = 0) ↔ ((i + 1) % L.toNat = 0) := by
      rw [← hLn, fmod_natCast]
      exact Int.natCast_eq_zero
    by_cases hx : (i + 1) % L.toNat = 0
    · rw [if_pos (hcond.mpr hx), if_pos hx]
    · rw [if_neg (fun hmm => hx (hcond.mp hmm)), if_neg hx]

theorem break_placement_witness :
    ((build_custom_plan 3 1 1 2 2 2)[1 * ((3 : Int).toNat * 2) + (2 * 1 + 1)]?).map
        Interval.kind =
      some (if (1 + 1) % (2 : Int).toNat = 0 then .long_break else .short_break) :=
  (break_placement 3 1 1 2 2 2 (by norm_num) (by norm_num) (by norm_num) (by norm_num)
    (by norm_num) (by norm_num)).2 1 1 (by norm_num) (by norm_num)

/-! ### C5: the Start handler -/

/-- **C5 counterexample.** The claim says `start()` is a no-op when the
session is already `Running`.  It is not: the handler never checks
`running`, so pressing Start while running (carried remainder 0) resets the
deadline to `now + total_seconds`.  Here the plan is
`build_custom_plan(1,1,1,1,4,1)`, the running state has deadline 100, and
Start at `now = 50` moves the deadline to 110. -/
theorem start_running_noop_counterexample :
    (⟨0, true, 100, 0⟩ : SessionState).running = true ∧
    startHandler (build_custom_plan 1 1 1 1 4 1) false 50 ⟨0, true, 100, 0⟩ ≠
      ⟨0, true, 100, 0⟩ := by
  exact ⟨rfl, by decide⟩

/-- **C5 (amended).** Whenever `current_index` is in range the Start
handler — regardless of whether the session is Idle, Paused or already
Running — sets `running := true` and the deadline to `now + remaining` when
the carried remainder is positive, else `now +` the (possibly time-scaled)
full duration of the current interval; it leaves `current_index` and the
carried remainder untouched.  It is a no-op exactly when `current_index` is
out of range. -/
theorem start_behaviour (plan : List Interval) (fast : Bool) (now : Int) (s : SessionState) :
    (s.current_index < plan.length →
      (startHandler plan fast now s).running = true ∧
      (startHandler plan fast now s).end_time =
        now + (if 0 < s.remaining then s.remaining else totalSecondsFor plan fast s) ∧
      (startHandler plan fast now s).current_index = s.current_index ∧
      (startHandler plan fast now s).remaining = s.remaining) ∧
    (plan.length ≤ s.current_index → startHandler plan fast now s = s) := by
  constructor
  · intro h
    unfold startHandler
    rw [if_pos h]
    by_cases hr : 0 < s.remaining <;> simp [hr]
  · intro h
    unfold startHandler
    rw [if_neg (by omega)]

theorem start_behaviour_witness :
    (startHandler (build_custom_plan 1 1 1 1 4 1) false 10 ⟨0, false, 0, 5⟩).running = true ∧
    (startHandler (build_custom_plan 1 1 1 1 4 1) false 10 ⟨0, false, 0, 5⟩).end_time =
      10 + (if 0 < (⟨0, false, 0, 5⟩ : SessionState).remaining
        then (⟨0, false, 0, 5⟩ : SessionState).remaining
        else totalSecondsFor (build_custom_plan 1 1 1 1 4 1) false ⟨0, false, 0, 5⟩) ∧
    (startHandler (build_custom_plan 1 1 1 1 4 1) false 10 ⟨0, false, 0, 5⟩).current_index =
      (⟨0, false, 0, 5⟩ : SessionState).current_index ∧
    (startHandler (build_custom_plan 1 1 1 1 4 1) false 10 ⟨0, false, 0, 5⟩).remaining =
      (⟨0, false, 0, 5⟩ : SessionState).remaining :=
  (start_behaviour (build_custom_plan 1 1 1 1 4 1) false 10 ⟨0, false, 0, 5⟩).1 (by decide)

/-! ### C6: the Pause handler -/

/-- **C6 counterexample.** The claim says `pause()` outside the Running
state is a no-op.  It is not: pausing never clears `end_time`, so pausing
an already-paused session recomputes the carried remainder from the stale
deadline.  With deadline 20 and carried remainder 10 (a session paused at
time 10), pressing Pause again at time 15 shrinks the remainder to 5. -/
theorem pause_noop_counterexample :
    (⟨0, false, 20, 10⟩ : SessionState).running = false ∧
    pauseHandler 15 ⟨0, false, 20, 10⟩ ≠ ⟨0, false, 20, 10⟩ := by
  exact ⟨rfl, by decide⟩

/-- **C6 (amended).** The Pause handler always sets `running := false`;
whenever `end_time ≠ 0` — which includes the already-Paused state, since
pausing does not clear the deadline — it recomputes
`remaining = max 0 (end_time - now)`; it leaves the state otherwise
unchanged, and it is a strict no-op only when `running` is already false
and `end_time = 0`. -/
theorem pause_behaviour (now : Int) (s : SessionState) :
    (pauseHandler now s).running = false ∧
    (s.end_time ≠ 0 →
      pauseHandler now s =
        { s with running := false, remaining := max 0 (s.end_time - now) }) ∧
    (s.end_time = 0 → pauseHandler now s = { s with running := false }) := by
  refine ⟨?_, ?_, ?_⟩ <;> unfold pauseHandler
  · split <;> rfl
  · intro h
    rw [if_pos h]
  · intro h
    rw [if_neg (fun hn => hn h)]

theorem pause_behaviour_witness :
    pauseHandler 15 ⟨0, true, 20, 0⟩ =
      { (⟨0, true, 20, 0⟩ : SessionState) with
        running := false
        remaining := max 0 ((⟨0, true, 20, 0⟩ : SessionState).end_time - 15) } :=
  (pause_behaviour 15 ⟨0, true, 20, 0⟩).2.1 (by decide)

/-! ### C7: the tick logic -/

/-- **C7.** For a running session whose `current_index` is in range, a tick
with `now ≥ deadline` (so `int(end_time - now) <= 0`) reports a completion
event for the interval at `current_index`, advances `current_index` by
exactly one and clears the running/deadline/carried fields; a tick strictly
before the deadline leaves `current_index` (indeed the whole state)
unchanged. -/
theorem tick_advance (plan : List Interval) (fast : Bool) (now : Int) (s : SessionState)
    (curr : Interval) (hcurr : plan[s.current_index]? = some curr)
    (hrun : s.running = true) :
    (s.end_time ≤ now →
      tick plan fast now s =
        ({ current_index := s.current_index + 1, running := false,
           end_time := 0, remaining := 0 }, .completed curr)) ∧
    (now < s.end_time →
      (tick plan fast now s).1 = s ∧
      (tick plan fast now s).1.current_index = s.current_index) := by
  constructor
  · intro h
    simp only [tick, hcurr, hrun, if_true]
    rw [if_pos (by omega : s.end_time - now ≤ 0)]
  · intro h
    simp only [tick, hcurr, hrun, if_true]
    rw [if_neg (by omega : ¬ s.end_time - now ≤ 0)]
    exact ⟨rfl, rfl⟩

theorem tick_advance_witness :
    tick (build_custom_plan 1 1 1 1 4 1) false 100 ⟨0, true, 100, 0⟩ =
      ({ current_index := 1, running := false, end_time := 0, remaining := 0 },
        .completed ⟨.focus, "Focus 1", 60⟩) :=
  (tick_advance (build_custom_plan 1 1 1 1 4 1) false 100 ⟨0, true, 100, 0⟩
    ⟨.focus, "Focus 1", 60⟩ (by decide) rfl).1 (by decide)

/-! ### C8: the pause/resume round trip -/

/-- **C8 counterexample.** The claim says pause-then-start with no time
passing restores the remaining-seconds count for *every* running session.
It fails when the deadline has just been reached: with `end_time = now =
50` the running session has 0 seconds remaining, but pausing stores
`remaining = 0` and the subsequent Start treats 0 as "no carried
remainder" and restarts the full 60-second interval. -/
theorem pause_resume_counterexample :
    (⟨0, true, 50, 0⟩ : SessionState).running = true ∧
    (⟨0, true, 50, 0⟩ : SessionState).end_time - 50 = 0 ∧
    (startHandler (build_custom_plan 1 1 1 1 4 1) false 50
        (pauseHandler 50 ⟨0, true, 50, 0⟩)).end_time - 50 = 60 := by
  exact ⟨rfl, rfl, by decide⟩

/-- **C8 (amended).** For every running session whose `current_index` is in
range and whose remaining time `deadline - now` is strictly positive,
`pause()` immediately followed by `start()` with no time passing in
between restores the running state with the same remaining-seconds count
(`deadline - now` is preserved). -/
theorem pause_resume_roundtrip (plan : List Interval) (fast : Bool) (now : Int)
    (s : SessionState) (hrun : s.running = true)
    (hin : s.current_index < plan.length) (hnow : 0 ≤ now)
    (hpos : 0 < s.end_time - now) :
    (startHandler plan fast now (pauseHandler now s)).running = true ∧
    (startHandler plan fast now (pauseHandler now s)).end_time - now =
      s.end_time - now := by
  have hne : s.end_time ≠ 0 := by omega
  unfold pauseHandler
  rw [if_pos hne]
  have hmax : max 0 (s.end_time - now) = s.end_time - now :=
    max_eq_right (le_of_lt hpos)
  unfold startHandler
  dsimp only []
  rw [if_pos hin, hmax, if_pos hpos]
  dsimp only []
  exact ⟨rfl, by ring⟩

theorem pause_resume_roundtrip_witness :
    (startHandler (build_custom_plan 1 1 1 1 4 1) false 10
        (pauseHandler 10 ⟨0, true, 17, 0⟩)).running = true ∧
    (startHandler (build_custom_plan 1 1 1 1 4 1) false 10
        (pauseHandler 10 ⟨0, true, 17, 0⟩)).end_time - 10 =
      (⟨0, true, 17, 0⟩ : SessionState).end_time - 10 :=
  pause_resume_roundtrip (build_custom_plan 1 1 1 1 4 1) false 10 ⟨0, true, 17, 0⟩
    rfl (by decide) (by decide) (by decide)

/-! ### C9: the completion percentage -/

theorem tdiv_eq_natCast_div (a b : Int) (ha : 0 ≤ a) (hb : 0 ≤ b) :
    Int.tdiv a b = ((a.toNat / b.toNat : Nat) : Int) := by
  obtain ⟨m, rfl⟩ := Int.eq_ofNat_of_zero_le ha
  obtain ⟨n, rfl⟩ := Int.eq_ofNat_of_zero_le hb
  rfl

theorem pctValue_props (t e : Int) (ht : 0 < t) (he : 0 ≤ e) (het : e < t) :
    pctValue t e = (((100 * e).toNat / t.toNat : Nat) : Int) ∧
    0 ≤ pctValue t e ∧ pctValue t e < 100 := by
  have h100 : 0 ≤ 100 * e := by nlinarith
  have hdiv : (100 * e).toNat / t.toNat < 100 := by
    rw [Nat.div_lt_iff_lt_mul (by omega : 0 < t.toNat)]
    omega
  have hmin : pctValue t e = (((100 * e).toNat / t.toNat : Nat) : Int) := by
    rw [pctValue, tdiv_eq_natCast_div _ _ h100 (le_of_lt ht)]
    apply min_eq_right
    exact_mod_cast hdiv.le
  refine ⟨hmin, ?_, ?_⟩
  · rw [hmin]
    exact Int.natCast_nonneg _
  · rw [hmin]
    exact_mod_cast hdiv

theorem pctValue_mono (t e1 e2 : Int) (ht : 0 < t) (he1 : 0 ≤ e1) (h12 : e1 ≤ e2) :
    pctValue t e1 ≤ pctValue t e2 := by
  unfold pctValue
  apply min_le_min (le_refl 100)
  rw [tdiv_eq_natCast_div _ _ (by nlinarith) (le_of_lt ht),
    tdiv_eq_natCast_div _ _ (by nlinarith) (le_of_lt ht)]
  have : (100 * e1).toNat ≤ (100 * e2).toNat := by omega
  exact_mod_cast Nat.div_le_div_right this

/-- **C9 counterexample.** The claim says the reported percentage equals
`round(100 * elapsed / total)` and equals 100 exactly at the completion
tick.  Both parts fail: with a 3-second effective interval (focus 3
minutes under fast scaling), deadline 11 and `now = 10` we have
`elapsed = 2` and the code shows `int(min(100, (2/3)*100)) = 66`, whereas
`round(200/3) = 67`; and at the completion tick (`now = 13`) no percentage
is reported at all. -/
theorem pct_round_counterexample :
    pctDisplayed (tick (build_custom_plan 1 3 1 1 4 1) true 10 ⟨0, true, 11, 0⟩).2 =
      some 66 ∧
    round ((100 * (2 : ℚ)) / 3) = 67 ∧
    pctDisplayed (tick (build_custom_plan 1 3 1 1 4 1) true 13 ⟨0, true, 11, 0⟩).2 =
      none := by
  refine ⟨by decide, ?_, by decide⟩
  rw [round_eq, Int.floor_eq_iff]
  constructor <;> norm_num

/-- **C9 (amended).** For every tick of a running in-range interval with
positive effective total `t` and remaining time in `(0, t]`, the reported
completion percentage equals the *truncation* (floor, the values being
non-negative) of `100 * elapsed / t` with `elapsed = t - remaining`, lies
in `[0, 100)` (so it never reaches 100), and is monotonically
non-decreasing across successive ticks of the same interval; the
completion tick itself reports no percentage. -/
theorem pct_properties (plan : List Interval) (fast : Bool) (s : SessionState)
    (curr : Interval) (t : Int) (hcurr : plan[s.current_index]? = some curr)
    (hrun : s.running = true) (htdef : t = effectiveTotal fast curr) (ht : 0 < t) :
    (∀ now : Int, now < s.end_time → s.end_time - now ≤ t →
      pctDisplayed (tick plan fast now s).2 =
        some (pctValue t (t - (s.end_time - now))) ∧
      pctValue t (t - (s.end_time - now)) =
        (((100 * (t - (s.end_time - now))).toNat / t.toNat : Nat) : Int) ∧
      0 ≤ pctValue t (t - (s.end_time - now)) ∧
      pctValue t (t - (s.end_time - now)) < 100) ∧
    (∀ now : Int, s.end_time ≤ now → pctDisplayed (tick plan fast now s).2 = none) ∧
    (∀ now1 now2 : Int, now1 ≤ now2 → now2 < s.end_time → s.end_time - now1 ≤ t →
      ∃ p1 p2 : Int, pctDisplayed (tick plan fast now1 s).2 = some p1 ∧
        pctDisplayed (tick plan fast now2 s).2 = some p2 ∧ p1 ≤ p2) := by
  subst htdef
  have hdisp : ∀ now : Int, now < s.end_time →
      pctDisplayed (tick plan fast now s).2 =
        some (pctValue (effectiveTotal fast curr)
          (effectiveTotal fast curr - (s.end_time - now))) := by
    intro now hnow
    simp only [tick, hcurr, hrun, if_true]
    rw [if_neg (by omega : ¬ s.end_time - now ≤ 0), if_pos ht, if_pos ht]
    rfl
  refine ⟨?_, ?_, ?_⟩
  · intro now hnow hle
    have hprops := pctValue_props (effectiveTotal fast curr)
      (effectiveTotal fast curr - (s.end_time - now)) ht (by omega) (by omega)
    exact ⟨hdisp now hnow, hprops.1, hprops.2.1, hprops.2.2⟩
  · intro now hnow
    simp only [tick, hcurr, hrun, if_true]
    rw [if_pos (by omega : s.end_time - now ≤ 0)]
    rfl
  · intro now1 now2 h12 h2 hle1
    refine ⟨_, _, hdisp now1 (by omega), hdisp now2 h2, ?_⟩
    exact pctValue_mono (effectiveTotal fast curr) _ _ ht (by omega) (by omega)

theorem pct_properties_witness :
    pctDisplayed (tick (build_custom_plan 1 3 1 1 4 1) true 12 ⟨0, true, 11, 0⟩).2 =
      none :=
  (pct_properties (build_custom_plan 1 3 1 1 4 1) true ⟨0, true, 11, 0⟩
    ⟨.focus, "Focus 1", 180⟩ 3 (by decide) rfl (by decide) (by decide)).2.1 12 (by decide)

/-! ### C10: repeat cycles are literal repetition -/

/-- **C10.** In the cadence variant the focus-interval numbering restarts
at 1 in every repeat cycle: for every valid configuration,
`build_custom_plan` with `repeat = r` returns exactly the `r`-fold
concatenation of the plan it returns for `repeat = 1` — the same kinds,
labels and durations in the same order.  This holds because the outer loop
body does not depend on the cycle counter. -/
theorem custom_plan_repeat (p f s l L r : Int)
    (hp : 1 ≤ p) (hf : 0 < f) (hs : 0 < s) (hl : 0 < l) (hL : 1 ≤ L) (hr : 1 ≤ r) :
    build_custom_plan p f s l L r =
      (List.replicate r.toNat (build_custom_plan p f s l L 1)).flatten := by
  have h1 : build_custom_plan p f s l L 1 = customCycle p f s l L := by
    have : List.range 1 = [0] := rfl
    simp [build_custom_plan, this]
  rw [h1]
  unfold build_custom_plan
  rw [flatMap_const_eq_flatten_replicate, List.length_range]

theorem custom_plan_repeat_witness :
    build_custom_plan 2 1 1 2 2 3 =
      (List.replicate (3 : Int).toNat (build_custom_plan 2 1 1 2 2 1)).flatten :=
  custom_plan_repeat 2 1 1 2 2 3 (by norm_num) (by norm_num) (by norm_num)
    (by norm_num) (by norm_num) (by norm_num)

end PomodoroTracker
